import Mathlib

/-!
Shallow embedding of V8's concurrent optimizing-compilation pipeline
(optimizing-compile-dispatcher.cc, maglev-concurrent-dispatcher.cc), the
RISC-V instruction-selector heuristics (instruction-selector-riscv.h), the
arm64 Maglev bounds checks (maglev-ir-arm64.cc), and the Maglev deopt-info
bookkeeping (maglev-ir.cc), together with theorems settling the spec claims.
-/

namespace V8

/-! ## Dispatcher concurrency sizing

Embeds `OptimizingCompileDispatcher::CompileTask::GetMaxConcurrency`
(optimizing-compile-dispatcher.cc, lines 60-67) and
`MaglevConcurrentDispatcher::JobTask::GetMaxConcurrency`
(maglev-concurrent-dispatcher.cc, lines 241-248).  Both compute
`num_tasks = queue_length + worker_count` and cap it by the configured
maximum thread count when that flag is positive. -/

/-- `CompileTask::GetMaxConcurrency(worker_count)`: queue length plus current
workers, capped by the `concurrent_turbofan_max_threads` flag when set. -/
def compileTaskGetMaxConcurrency (inputQueueLength workerCount maxThreads : Nat) : Nat :=
  let numTasks := inputQueueLength + workerCount
  if 0 < maxThreads then min maxThreads numTasks else numTasks

/-- `MaglevConcurrentDispatcher::JobTask::GetMaxConcurrency(worker_count)`:
incoming-queue size plus current workers, capped by the
`concurrent_maglev_max_threads` flag when set. -/
def maglevJobTaskGetMaxConcurrency (incomingQueueSize workerCount maxThreads : Nat) : Nat :=
  let numTasks := incomingQueueSize + workerCount
  if 0 < maxThreads then min maxThreads numTasks else numTasks

/-! ## Finalization of drained output-queue jobs

Embeds `OptimizingCompileDispatcher::InstallOptimizedFunctions`
(optimizing-compile-dispatcher.cc, lines 184-212).  Each job drained from the
output queue is silently disposed when it is not an OSR job and the target
function already has available code of the requested kind; otherwise it is
finalized. -/

/-- A completed Turbofan job as seen by `InstallOptimizedFunctions`: whether
its compilation info is marked OSR, and whether the target function already
has available code of the requested kind at drain time. -/
structure OutputJob where
  id : Nat
  isOsr : Bool
  hasAvailableCodeKind : Bool
  deriving DecidableEq, Repr

/-- `InstallOptimizedFunctions` over the drained output queue (front first):
returns the jobs passed to `FinalizeTurbofanCompilationJob` and the jobs
passed to `DisposeTurbofanCompilationJob` by the racing-completion check. -/
def installOptimizedFunctions : List OutputJob → List OutputJob × List OutputJob
  | [] => ([], [])
  | j :: rest =>
    let (fin, disp) := installOptimizedFunctions rest
    if !j.isOsr && j.hasAvailableCodeKind then (fin, j :: disp) else (j :: fin, disp)

/-! ## Switch lowering (RISC-V)

Embeds `InstructionSelectorT::VisitSwitch`
(instruction-selector-riscv.h, lines 472-504).  With jump tables enabled, the
selector emits a table switch exactly when the case count is positive, the
cost comparison `table_space_cost + 3*table_time_cost <=
lookup_space_cost + 3*lookup_time_cost` holds, the minimum case value is above
the signed 32-bit minimum, and the value range does not exceed
`kMaxTableSwitchValueRange = 2 << 16`. -/

/-- `kMaxTableSwitchValueRange = 2 << 16` from `VisitSwitch`. -/
def kMaxTableSwitchValueRange : Nat := 2 <<< 16

/-- The jump-table decision of `VisitSwitch`: `true` when a table switch is
emitted, `false` when a binary-search switch is emitted. -/
def visitSwitchUsesTable (enableJumpTable : Bool) (caseCount valueRange : Nat)
    (minValue : Int) : Bool :=
  if enableJumpTable then
    let tableSpaceCost := 10 + 2 * valueRange
    let tableTimeCost := 3
    let lookupSpaceCost := 2 + 2 * caseCount
    let lookupTimeCost := caseCount
    decide (0 < caseCount) &&
      decide (tableSpaceCost + 3 * tableTimeCost ≤ lookupSpaceCost + 3 * lookupTimeCost) &&
      decide (-(2 ^ 31 : Int) < minValue) &&
      decide (valueRange ≤ kMaxTableSwitchValueRange)
  else false

/-- The spec's wording of the jump-table rule, stated independently: emit a
jump table when the case count is positive, the table cost does not exceed the
lookup cost under the 3x time weighting, the value range fits the maximum
table span, and the minimum value avoids signed 32-bit overflow. -/
def specSwitchUsesTable (enableJumpTable : Bool) (caseCount valueRange : Nat)
    (minValue : Int) : Prop :=
  enableJumpTable = true ∧ 0 < caseCount ∧
    (10 + 2 * valueRange) + 3 * 3 ≤ (2 + 2 * caseCount) + 3 * caseCount ∧
    -(2 ^ 31 : Int) < minValue ∧ valueRange ≤ 2 <<< 16

instance (e : Bool) (c r : Nat) (m : Int) : Decidable (specSwitchUsesTable e c r m) := by
  unfold specSwitchUsesTable; infer_instance

/-! ## Worker-task loops

Embeds `OptimizingCompileDispatcher::CompileTask::Run` together with
`OptimizingCompileDispatcher::CompileNext`
(optimizing-compile-dispatcher.cc, lines 34-58 and 96-114), and
`MaglevConcurrentDispatcher::JobTask::Run`
(maglev-concurrent-dispatcher.cc, lines 219-239).

A job is modelled by its identity and by the outcome its Execute phase will
report.  The scheduler's `JobDelegate::ShouldYield` answers are modelled as a
list of booleans consumed one per loop iteration; an exhausted list means the
scheduler never asks the task to yield again.  Queues are modelled as lists,
front first; the ring-buffer realisation of the Turbofan input queue is
embedded separately below. -/

/-- A compilation job as seen by the worker loops: its identity and whether
its Execute phase reports `CompilationJob::SUCCEEDED`. -/
structure CompilationJobModel where
  id : Nat
  executeSucceeds : Bool
  deriving DecidableEq, Repr

/-- `OptimizingCompileDispatcher::CompileNext`: runs `ExecuteJob`, discards
the resulting status (`USE(status)`), and unconditionally pushes the job onto
the output queue under the output-queue mutex. -/
def compileNext (job : CompilationJobModel) (outputQueue : List CompilationJobModel) :
    List CompilationJobModel :=
  -- status = job->ExecuteJob(...);  USE(status);  -- the status is not read
  outputQueue ++ [job]

/-- `CompileTask::Run`: while the delegate has not asked the task to yield,
dequeue the next input job (breaking when the queue is empty) and run
`CompileNext` on it.  Returns the remaining input queue and the final output
queue. -/
def compileTaskRun : List Bool → List CompilationJobModel → List CompilationJobModel →
    List CompilationJobModel × List CompilationJobModel
  | true :: _, input, output => (input, output)
  | _, [], output => ([], output)
  | false :: ys, j :: rest, output => compileTaskRun ys rest (compileNext j output)
  | [], j :: rest, output => compileTaskRun [] rest (compileNext j output)

/-- `MaglevConcurrentDispatcher::JobTask::Run`: while the incoming queue is
non-empty and the delegate has not asked the task to yield, dequeue one job,
run its Execute phase, and push it onto the outgoing queue only when the
status is `SUCCEEDED`.  Returns the remaining incoming queue and the final
outgoing queue. -/
def maglevJobTaskRun : List Bool → List CompilationJobModel → List CompilationJobModel →
    List CompilationJobModel × List CompilationJobModel
  | _, [], output => ([], output)
  | true :: _, input, output => (input, output)
  | false :: ys, j :: rest, output =>
    maglevJobTaskRun ys rest (if j.executeSucceeds then output ++ [j] else output)
  | [], j :: rest, output =>
    maglevJobTaskRun [] rest (if j.executeSucceeds then output ++ [j] else output)

/-! ## Flush

Embeds `OptimizingCompileDispatcher::FlushInputQueue`, `AwaitCompileTasks`,
`FlushOutputQueue`, `FlushQueues` and `Flush`
(optimizing-compile-dispatcher.cc, lines 116-174), and
`MaglevConcurrentDispatcher::Flush`
(maglev-concurrent-dispatcher.cc, lines 324-338).

Disposal is modelled by a `disposed` log recording each job handed to
`Compiler::DisposeTurbofanCompilationJob` together with the
`restore_function_code` flag; joining or cancelling the platform job handle
and posting a fresh task is modelled by bumping a task generation counter. -/

/-- The dispatcher state visible to the flush paths. -/
structure TurbofanDispatcherState where
  inputQueue : List CompilationJobModel
  outputQueue : List CompilationJobModel
  disposed : List (CompilationJobModel × Bool)
  taskGeneration : Nat
  deriving DecidableEq, Repr

/-- `FlushInputQueue`: pops every pending input job under the input-queue
mutex and disposes it with `restore_function_code = true`. -/
def flushInputQueue (st : TurbofanDispatcherState) : TurbofanDispatcherState :=
  { st with
    inputQueue := []
    disposed := st.disposed ++ st.inputQueue.map (fun j => (j, true)) }

/-- `AwaitCompileTasks`: joins the worker job handle and posts a fresh
`CompileTask`, modelled as bumping the task generation. -/
def awaitCompileTasks (st : TurbofanDispatcherState) : TurbofanDispatcherState :=
  { st with taskGeneration := st.taskGeneration + 1 }

/-- `FlushOutputQueue(restore_function_code)`: pops every completed job from
the output queue and disposes it with the given restore flag. -/
def flushOutputQueue (restoreFunctionCode : Bool) (st : TurbofanDispatcherState) :
    TurbofanDispatcherState :=
  { st with
    outputQueue := []
    disposed := st.disposed ++ st.outputQueue.map (fun j => (j, restoreFunctionCode)) }

/-- `FlushQueues(blocking_behavior, restore_function_code)`: flush the input
queue, await the compile tasks when blocking, then flush the output queue
(in both modes). -/
def flushQueues (blocking restoreFunctionCode : Bool) (st : TurbofanDispatcherState) :
    TurbofanDispatcherState :=
  flushOutputQueue restoreFunctionCode
    (if blocking then awaitCompileTasks (flushInputQueue st) else flushInputQueue st)

/-- `Flush(blocking_behavior)`: `FlushQueues` with
`restore_function_code = true`. -/
def flush (blocking : Bool) (st : TurbofanDispatcherState) : TurbofanDispatcherState :=
  flushQueues blocking true st

/-- The Maglev dispatcher state visible to `Flush`: the incoming and outgoing
queues, a log of dropped jobs, and the task generation. -/
structure MaglevDispatcherState where
  incoming : List CompilationJobModel
  outgoing : List CompilationJobModel
  dropped : List CompilationJobModel
  taskGeneration : Nat
  deriving DecidableEq, Repr

/-- `MaglevConcurrentDispatcher::Flush(behavior)`: drop every incoming job,
cancel and re-post the job task when blocking, then drop every outgoing job
(in both modes). -/
def maglevFlush (blocking : Bool) (st : MaglevDispatcherState) : MaglevDispatcherState :=
  let st1 : MaglevDispatcherState :=
    { st with incoming := [], dropped := st.dropped ++ st.incoming }
  let st2 : MaglevDispatcherState :=
    if blocking then { st1 with taskGeneration := st1.taskGeneration + 1 } else st1
  { st2 with outgoing := [], dropped := st2.dropped ++ st2.outgoing }

/-! ## Turbofan input queue (ring buffer)

Embeds `OptimizingCompileDispatcher::NextInput` and
`OptimizingCompileDispatcher::QueueForOptimization`
(optimizing-compile-dispatcher.cc, lines 85-94 and 219-230).  The input queue
is a fixed-capacity array of job pointers indexed through `InputQueueIndex`,
with a shift marking the front and a signed length, exactly as in the C++
(`input_queue_`, `input_queue_shift_`, `input_queue_length_`).  Jobs are
modelled by their identity. -/

/-- The ring-buffer state: the backing array (its length is the capacity
`input_queue_capacity_`), the front shift, and the signed queue length. -/
structure InputQueue where
  buf : List Nat
  shift : Nat
  length : Int
  deriving DecidableEq, Repr

/-- Modelled from the spec: the ring-buffer index helper `InputQueueIndex(i)`
used by `NextInput`, `FlushInputQueue` and `QueueForOptimization` — "index
arithmetic modulo capacity if using a ring buffer".  The helper itself is
declared in the dispatcher's header, which is not among the sources. -/
def inputQueueIndex (q : InputQueue) (i : Nat) : Nat :=
  (i + q.shift) % q.buf.length

/-- `NextInput`: under the input-queue mutex, return null when the queue is
empty, otherwise pop the front job, advance the shift by one slot and
decrement the length. -/
def nextInput (q : InputQueue) : Option Nat × InputQueue :=
  if q.length = 0 then (none, q)
  else
    (some (q.buf.getD (inputQueueIndex q 0) 0),
     { q with shift := inputQueueIndex q 1, length := q.length - 1 })

/-- `QueueForOptimization`: under the input-queue mutex, store the job at the
slot one past the current contents and increment the length (the caller
guarantees `input_queue_length_ < input_queue_capacity_`). -/
def queueForOptimization (job : Nat) (q : InputQueue) : InputQueue :=
  { q with
    buf := q.buf.set (inputQueueIndex q q.length.toNat) job
    length := q.length + 1 }

/-- The well-formedness of a queue state: non-negative length bounded by the
capacity, front shift inside the array, positive capacity. -/
def InputQueue.Valid (q : InputQueue) : Prop :=
  0 ≤ q.length ∧ q.length ≤ (q.buf.length : Int) ∧ q.shift < q.buf.length ∧ 0 < q.buf.length

instance (q : InputQueue) : Decidable q.Valid := by
  unfold InputQueue.Valid; infer_instance

/-- The abstract contents of the ring buffer, front first. -/
def InputQueue.toList (q : InputQueue) : List Nat :=
  (List.range q.length.toNat).map (fun i => q.buf.getD (inputQueueIndex q i) 0)

/-- A sequence of producer enqueues through `QueueForOptimization`. -/
def enqueueAll (jobs : List Nat) (q : InputQueue) : InputQueue :=
  jobs.foldl (fun acc j => queueForOptimization j acc) q

/-- A sequence of `NextInput` calls, collecting the dequeued jobs. -/
def dequeueAll : Nat → InputQueue → List Nat × InputQueue
  | 0, q => ([], q)
  | n + 1, q =>
    match nextInput q with
    | (none, q1) => ([], q1)
    | (some j, q1) =>
      let (rest, q2) := dequeueAll n q1
      (j :: rest, q2)

/-! ## Maglev deopt-info input locations

Embeds `GetInputLocationsArraySize` and the `DeoptInfo` constructor
(maglev-ir.cc, lines 218-246 and 322-332).  A deopt frame chain (the top
frame plus its parent chain, walked by the do-while loop) is modelled as the
top frame's data followed by the list of ancestor frames' data. -/

/-- The per-frame data consumed by `GetInputLocationsArraySize`: the frame
type together with the one count it reads (the interpreted frame's
frame-state size, the inlined-arguments frame's argument count, the
construct-stub frame's arguments-without-receiver count, or the
builtin-continuation frame's parameter count). -/
inductive DeoptFrameData where
  | interpreted (frameStateSize : Nat)
  | inlinedArguments (argumentsSize : Nat)
  | constructStub (argumentsWithoutReceiverSize : Nat)
  | builtinContinuation (parametersSize : Nat)
  deriving DecidableEq, Repr

/-- One iteration of the `GetInputLocationsArraySize` loop, with
`kClosureSize = kReceiverSize = kContextSize = 1`. -/
def deoptFrameContribution : DeoptFrameData → Nat
  | .interpreted n => 1 + n
  | .inlinedArguments n => 1 + n
  | .constructStub n => 1 + 1 + n + 1
  | .builtinContinuation n => n + 1

/-- `GetInputLocationsArraySize(top_frame)`: the do-while loop summing the
contribution of the top frame and of every parent frame. -/
def getInputLocationsArraySize (top : DeoptFrameData) (parents : List DeoptFrameData) : Nat :=
  parents.foldl (fun acc f => acc + deoptFrameContribution f) (deoptFrameContribution top)

/-- A `DeoptInfo` as built by its constructor: the frame chain and the
`input_locations_` array, allocated with `GetInputLocationsArraySize(top_frame)`
default-initialised entries (an `InputLocation` is opaque here). -/
structure DeoptInfo where
  topFrame : DeoptFrameData
  parentFrames : List DeoptFrameData
  inputLocations : List Unit

/-- The `DeoptInfo` constructor (maglev-ir.cc, lines 322-332). -/
def mkDeoptInfo (top : DeoptFrameData) (parents : List DeoptFrameData) : DeoptInfo :=
  { topFrame := top
    parentFrames := parents
    inputLocations := List.replicate (getInputLocationsArraySize top parents) () }

/-- The claim's per-frame-type size rule, stated independently: interpreted
frames contribute closure + frame-state size, inlined-arguments frames
closure + argument count, construct-stub frames closure + receiver +
arguments-without-receiver + context, and builtin-continuation frames
parameters + context. -/
def specFrameContribution : DeoptFrameData → Nat
  | .interpreted n => 1 + n
  | .inlinedArguments n => 1 + n
  | .constructStub n => 1 + 1 + n + 1
  | .builtinContinuation n => n + 1

/-- The claim's statically computed frame size: the per-frame-type rule
summed over all frames of the chain. -/
def specFrameSize (frames : List DeoptFrameData) : Nat :=
  (frames.map specFrameContribution).sum

/-! ## arm64 Maglev typed-array and data-view bounds checks

Embeds `CheckJSTypedArrayBounds::GenerateCode` and
`CheckJSDataViewBounds::GenerateCode` (maglev-ir-arm64.cc, lines 701-727 and
735-758).  Both compare full 64-bit register views.  The index register holds
an int32 index reinterpreted as unsigned: on arm64 every 32-bit register
write zero-extends, so the 64-bit view of the index register is the index's
two's-complement 32-bit pattern. -/

/-- The 64-bit register view of an int32 index: its two's-complement 32-bit
pattern, zero-extended. -/
def int32AsUnsignedWord (i : Int) : Nat := (i % (2 ^ 32 : Int)).toNat

/-- `base::bits::CountTrailingZeros(element_size)` for the element sizes the
code asserts (`DCHECK(element_size == 2 || element_size == 4 ||
element_size == 8)`); size 1 takes the unshifted compare. -/
def elementSizeShift : Nat → Nat
  | 2 => 1
  | 4 => 2
  | 8 => 3
  | _ => 0

/-- `CheckJSTypedArrayBounds::GenerateCode`: compare the loaded byte length
against the index shifted left by log2(element size) and eagerly deopt on
`kUnsignedLessThanEqual` — `byte_length <=_u (index << shift)`.  The shift is
a 64-bit `LSL`, hence the wrap at `2^64`. -/
def checkJSTypedArrayBoundsDeopts (byteLength : Nat) (index : Int)
    (elementSize : Nat) : Bool :=
  let scaled := (int32AsUnsignedWord index <<< elementSizeShift elementSize) % 2 ^ 64
  decide (byteLength % 2 ^ 64 ≤ scaled)

/-- `CheckJSDataViewBounds::GenerateCode`: for element sizes above one byte,
`Subs byte_length, byte_length, element_size - 1` and eagerly deopt on `mi`
(the subtraction result has bit 63 set, which for a byte length below `2^63`
means `byte_length < element_size - 1`); then compare the index against the
adjusted byte length and eagerly deopt on `hs` — `index >=_u adjusted`. -/
def checkJSDataViewBoundsDeopts (byteLength : Nat) (index : Int)
    (elementSize : Nat) : Bool :=
  decide ((1 < elementSize ∧ byteLength % 2 ^ 64 < elementSize - 1) ∨
    byteLength % 2 ^ 64 - (elementSize - 1) ≤ int32AsUnsignedWord index)

/-! ## RISC-V word comparison selection

Embeds `VisitWordCompare` (instruction-selector-riscv.h, lines 396-470).
Nodes are modelled by the features the function inspects: whether a node is a
truncation from int64 to int32 (and its input), whether it is an int32
constant (and its value), or anything else.  `CanBeImmediate` is defined in
the per-architecture operand generator, outside these sources, so it is a
parameter of the embedding; each theorem quantifies over it. -/

/-- The comparison node operands as inspected by `VisitWordCompare`. -/
inductive CmpNode where
  | truncateInt64ToInt32 (input : CmpNode)
  | int32Constant (value : Int)
  | other (id : Nat)
  deriving DecidableEq, Repr

/-- Whether the node is a constant, as the binop matchers see it. -/
def CmpNode.isConstant : CmpNode → Bool
  | .int32Constant _ => true
  | _ => false

/-- `Int32BinopMatcher m(node, true)`: with input swap allowed, the matcher
canonicalises a constant onto the right side. -/
def matcherRight (left right : CmpNode) : CmpNode :=
  if left.isConstant && !right.isConstant then left else right

/-- The comparison opcodes `VisitWordCompare` distinguishes. -/
inductive CmpOpcode where
  | kRiscvTst64
  | kRiscvTst32
  | kRiscvCmp
  deriving DecidableEq, Repr

/-- The flags conditions of the shared instruction-selector code. -/
inductive FlagsCondition where
  | kEqual
  | kNotEqual
  | kSignedLessThan
  | kSignedGreaterThanOrEqual
  | kSignedLessThanOrEqual
  | kSignedGreaterThan
  | kUnsignedLessThan
  | kUnsignedGreaterThanOrEqual
  | kUnsignedLessThanOrEqual
  | kUnsignedGreaterThan
  | kOverflow
  | kNotOverflow
  deriving DecidableEq, Repr

/-- Modelled from the spec: commuting a flags condition flips the comparison
direction ("swap operands and flip the comparison direction"); the
`CommuteFlagsCondition` table itself lives in the shared backend code, not
among these sources.  Equality, inequality and overflow are direction-free. -/
def commuteFlagsCondition : FlagsCondition → FlagsCondition
  | .kEqual => .kEqual
  | .kNotEqual => .kNotEqual
  | .kSignedLessThan => .kSignedGreaterThan
  | .kSignedGreaterThanOrEqual => .kSignedLessThanOrEqual
  | .kSignedLessThanOrEqual => .kSignedGreaterThanOrEqual
  | .kSignedGreaterThan => .kSignedLessThan
  | .kUnsignedLessThan => .kUnsignedGreaterThan
  | .kUnsignedGreaterThanOrEqual => .kUnsignedLessThanOrEqual
  | .kUnsignedLessThanOrEqual => .kUnsignedGreaterThanOrEqual
  | .kUnsignedGreaterThan => .kUnsignedLessThan
  | .kOverflow => .kOverflow
  | .kNotOverflow => .kNotOverflow

/-- The continuation state `VisitWordCompare` reads: the condition and
whether the continuation materialises a boolean (`IsSet`). -/
structure FlagsContinuation where
  condition : FlagsCondition
  isSet : Bool
  deriving DecidableEq, Repr

/-- `FlagsContinuation::Commute`: commutes the condition in place. -/
def FlagsContinuation.commute (cont : FlagsContinuation) : FlagsContinuation :=
  { cont with condition := commuteFlagsCondition cont.condition }

/-- How an operand is handed to the operand generator. -/
inductive OperandUse where
  | useRegister (n : CmpNode)
  | useImmediate (n : CmpNode)
  | useRegisterOrImmediateZero (n : CmpNode)
  deriving DecidableEq, Repr

/-- The instruction emitted by `VisitWordCompare`: a two-operand compare via
`VisitCompare`, or a compare-against-zero via `VisitWordCompareZero`. -/
inductive CmpEmission where
  | compare (op : CmpOpcode) (lhs rhs : OperandUse) (cond : FlagsCondition)
  | compareZero (value : OperandUse) (cond : FlagsCondition)
  deriving DecidableEq, Repr

/-- The body of `VisitWordCompare` after the operand-swap step (lines
409-469): match immediates on the right side of the comparison. -/
def visitWordCompareMatched (canImm : CmpNode → CmpOpcode → Bool) (op : CmpOpcode)
    (left right : CmpNode) (cont : FlagsContinuation) : CmpEmission :=
  if canImm right op then
    if op = .kRiscvTst64 ∨ op = .kRiscvTst32 then
      match left with
      | .truncateInt64ToInt32 inner =>
        .compare op (.useRegister inner) (.useImmediate right) cont.condition
      | _ => .compare op (.useRegister left) (.useImmediate right) cont.condition
    else
      match cont.condition with
      | .kEqual | .kNotEqual =>
        if cont.isSet then
          .compare op (.useRegister left) (.useImmediate right) cont.condition
        else if matcherRight left right = .int32Constant 0 then
          .compareZero (.useRegisterOrImmediateZero left) cont.condition
        else
          .compare op (.useRegister left) (.useRegister right) cont.condition
      | .kSignedLessThan | .kSignedGreaterThanOrEqual
      | .kUnsignedLessThan | .kUnsignedGreaterThanOrEqual =>
        if matcherRight left right = .int32Constant 0 then
          .compareZero (.useRegisterOrImmediateZero left) cont.condition
        else
          .compare op (.useRegister left) (.useImmediate right) cont.condition
      | _ =>
        if matcherRight left right = .int32Constant 0 then
          .compareZero (.useRegisterOrImmediateZero left) cont.condition
        else
          .compare op (.useRegister left) (.useRegister right) cont.condition
  else
    .compare op (.useRegister left) (.useRegister right) cont.condition

/-- `VisitWordCompare` (lines 396-470): when the right operand cannot be an
immediate for the opcode but the left one can, commute the continuation and
swap the operands, then match immediates on the right side. -/
def visitWordCompare (canImm : CmpNode → CmpOpcode → Bool) (op : CmpOpcode)
    (left right : CmpNode) (cont : FlagsContinuation) : CmpEmission :=
  if !canImm right op && canImm left op then
    visitWordCompareMatched canImm op right left cont.commute
  else
    visitWordCompareMatched canImm op left right cont

/-! ## RISC-V 32-bit shift pattern fusion

Embeds `InstructionSelectorT::VisitWord32Shl` and
`InstructionSelectorT::VisitWord32Sar` (instruction-selector-riscv.h, lines
809-838 and 845-872).  Whether the intermediate node can be folded into its
single consumer (`CanCover`) is a boolean parameter.  Resolved constant
values are `uint32_t` in the source and `Nat` here. -/

/-- The node shapes the two shift visitors inspect. -/
inductive ShiftNode where
  | word32And (left right : ShiftNode)
  | word32Shl (left right : ShiftNode)
  | word32Sar (left right : ShiftNode)
  | int32Constant (value : Nat)
  | other (id : Nat)
  deriving DecidableEq, Repr

/-- Whether the node is a constant, as the binop matchers see it. -/
def ShiftNode.isConstant : ShiftNode → Bool
  | .int32Constant _ => true
  | _ => false

/-- `Int32BinopMatcher mleft(...)` on the commutative `Word32And`: a constant
is canonicalised onto the right side. -/
def andMatcherPair (left right : ShiftNode) : ShiftNode × ShiftNode :=
  if left.isConstant && !right.isConstant then (right, left) else (left, right)

/-- `base::bits::CountPopulation` on a `uint32_t`. -/
def popcount32 (n : Nat) : Nat :=
  (List.range 32).countP (fun i => n.testBit i)

/-- The bit length of a `uint32_t`: the number of exponents whose power of
two does not exceed the value. -/
def bitLength32 (n : Nat) : Nat :=
  (List.range 32).countP (fun i => 2 ^ i ≤ n)

/-- `base::bits::CountLeadingZeros32` on a `uint32_t`. -/
def countLeadingZeros32 (n : Nat) : Nat := 32 - bitLength32 n

/-- The architecture opcodes the shift visitors can emit, together with the
backend's dedicated word sign-extension opcode (which `VisitWord32Sar` never
emits) so that the claim about it can be stated. -/
inductive ArchOpcode32 where
  | kRiscvShl32
  | kRiscvSar32
  | kRiscvSignExtendShort
  | kRiscvSignExtendByte
  | kRiscvSignExtendWord
  deriving DecidableEq, Repr

/-- Operand policies the shift visitors use. -/
inductive ShiftOperand where
  | defineAsRegister (n : ShiftNode)
  | useRegister (n : ShiftNode)
  | useImmediate (n : ShiftNode)
  | useOperand (n : ShiftNode)
  | tempImmediate (v : Int)
  deriving DecidableEq, Repr

/-- An emitted instruction: opcode plus operand list (output first). -/
structure ShiftInstr where
  op : ArchOpcode32
  operands : List ShiftOperand
  deriving DecidableEq, Repr

/-- `VisitRRO`: result register, first input register, second input via
`UseOperand` (register or fitting immediate). -/
def visitRRO (op : ArchOpcode32) (node left right : ShiftNode) : ShiftInstr :=
  ⟨op, [.defineAsRegister node, .useRegister left, .useOperand right]⟩

/-- `VisitWord32Shl` on a `Word32Shl(left, right)` node: when the left input
is a covered `Word32And` with a constant mask whose popcount and leading
zeros sum to 32, and the constant shift in [1, 31] pushes the mask to or past
the top bit, emit a single `Shl32` of the mask's input; otherwise emit the
generic `Shl32` via `VisitRRO`. -/
def visitWord32Shl (canCover : Bool) (left right : ShiftNode) : ShiftInstr :=
  let node := ShiftNode.word32Shl left right
  match left, right with
  | .word32And al ar, .int32Constant shift =>
    if canCover ∧ 1 ≤ shift ∧ shift ≤ 31 then
      match andMatcherPair al ar with
      | (x, .int32Constant mask) =>
        let maskWidth := popcount32 mask
        let maskMsb := countLeadingZeros32 mask
        if maskWidth ≠ 0 ∧ maskMsb + maskWidth = 32 ∧ 32 ≤ shift + maskWidth then
          ⟨.kRiscvShl32, [.defineAsRegister node, .useRegister x, .useImmediate right]⟩
        else visitRRO .kRiscvShl32 node left right
      | _ => visitRRO .kRiscvShl32 node left right
    else visitRRO .kRiscvShl32 node left right
  | _, _ => visitRRO .kRiscvShl32 node left right

/-- `VisitWord32Sar` on a `Word32Sar(left, right)` node: when the left input
is a covered `Word32Shl` and both shift amounts are the same constant 16, 24
or 32, emit a single `SignExtendShort`, `SignExtendByte`, or `Shl32` by the
temp immediate 0 respectively; otherwise emit the generic `Sar32`. -/
def visitWord32Sar (canCover : Bool) (left right : ShiftNode) : ShiftInstr :=
  let node := ShiftNode.word32Sar left right
  if canCover then
    match left, right with
    | .word32Shl sl (.int32Constant shl), .int32Constant sar =>
      if sar = shl ∧ sar = 16 then
        ⟨.kRiscvSignExtendShort, [.defineAsRegister node, .useRegister sl]⟩
      else if sar = shl ∧ sar = 24 then
        ⟨.kRiscvSignExtendByte, [.defineAsRegister node, .useRegister sl]⟩
      else if sar = shl ∧ sar = 32 then
        ⟨.kRiscvShl32, [.defineAsRegister node, .useRegister sl, .tempImmediate 0]⟩
      else visitRRO .kRiscvSar32 node left right
    | _, _ => visitRRO .kRiscvSar32 node left right
  else visitRRO .kRiscvSar32 node left right

end V8

/-! # Theorems for the claims -/

/-- C2: for every queue length and worker count, both dispatchers'
`GetMaxConcurrency(worker_count)` return `min(configured_max,
queue_length + worker_count)` when the configured maximum thread count is
positive, and `queue_length + worker_count` when it is 0 (unset). -/
theorem getMaxConcurrency_spec (q w m : Nat) :
    (0 < m →
      V8.compileTaskGetMaxConcurrency q w m = min m (q + w) ∧
      V8.maglevJobTaskGetMaxConcurrency q w m = min m (q + w)) ∧
    (m = 0 →
      V8.compileTaskGetMaxConcurrency q w m = q + w ∧
      V8.maglevJobTaskGetMaxConcurrency q w m = q + w) := by
  constructor
  · intro hm
    simp [V8.compileTaskGetMaxConcurrency, V8.maglevJobTaskGetMaxConcurrency, hm]
  · intro hm
    subst hm
    simp [V8.compileTaskGetMaxConcurrency, V8.maglevJobTaskGetMaxConcurrency]

/-- Witness for C2 at queue length 7, worker count 2, caps 4 and 0. -/
theorem getMaxConcurrency_spec_witness :
    V8.compileTaskGetMaxConcurrency 7 2 4 = 4 ∧
    V8.compileTaskGetMaxConcurrency 7 2 0 = 9 := by
  refine ⟨?_, ?_⟩
  · have h := (getMaxConcurrency_spec 7 2 4).1 (by decide)
    rw [h.1]; decide
  · have h := (getMaxConcurrency_spec 7 2 0).2 rfl
    rw [h.1]

/-- C10: every OSR job drained from the output queue is finalized by
`InstallOptimizedFunctions` even when the function already has available code
of the requested kind, and every job disposed by the racing-completion check
is a non-OSR job whose function already has such code. -/
theorem installOptimizedFunctions_osr (jobs : List V8.OutputJob) (j : V8.OutputJob) :
    (j ∈ jobs → j.isOsr = true → j ∈ (V8.installOptimizedFunctions jobs).1) ∧
    (j ∈ (V8.installOptimizedFunctions jobs).2 →
      j.isOsr = false ∧ j.hasAvailableCodeKind = true) := by
  induction jobs with
  | nil => simp [V8.installOptimizedFunctions]
  | cons hd tl ih =>
    simp only [V8.installOptimizedFunctions]
    constructor
    · intro hmem hosr
      rcases List.mem_cons.mp hmem with heq | htl
      · subst heq
        simp [hosr]
      · have hfin := ih.1 htl
        by_cases hc : !hd.isOsr && hd.hasAvailableCodeKind <;>
          simp [hc, hfin hosr]
    · intro hmem
      by_cases hc : !hd.isOsr && hd.hasAvailableCodeKind
      · simp only [hc, if_pos] at hmem
        rcases List.mem_cons.mp hmem with heq | htl
        · subst heq
          simp only [Bool.and_eq_true, Bool.not_eq_true'] at hc
          exact ⟨hc.1, hc.2⟩
        · exact ih.2 htl
      · simp only [hc, if_neg, Bool.false_eq_true, not_false_iff] at hmem
        exact ih.2 hmem

/-- Witness for C10: an OSR job whose function already has the requested code
kind is still finalized. -/
theorem installOptimizedFunctions_osr_witness :
    (⟨1, true, true⟩ : V8.OutputJob) ∈
      (V8.installOptimizedFunctions [⟨1, true, true⟩, ⟨2, false, true⟩]).1 :=
  (installOptimizedFunctions_osr [⟨1, true, true⟩, ⟨2, false, true⟩] ⟨1, true, true⟩).1
    (by decide) (by decide)

/-- C3 counterexample: with jump tables enabled, `case_count = 5` and
`value_range = 6` (minimum value 0) the selector chooses binary search, not a
jump table: the table cost 31 exceeds the lookup cost 27. -/
theorem visitSwitch_five_six_binary :
    V8.visitSwitchUsesTable true 5 6 0 = false := by decide

/-- C3 (amended): with jump tables enabled the decision is exactly the stated
cost rule with the span and signed-overflow gates; for `case_count = 5`,
`value_range = 6` the selector chooses binary search (a jump table needs e.g.
`case_count = 6`, `value_range = 6`), and for `case_count = 3`,
`value_range = 1000000` it chooses binary search. -/
theorem visitSwitch_spec (e : Bool) (c r : Nat) (m : Int) :
    (V8.visitSwitchUsesTable e c r m = true ↔ V8.specSwitchUsesTable e c r m) ∧
    V8.visitSwitchUsesTable true 5 6 0 = false ∧
    V8.visitSwitchUsesTable true 6 6 0 = true ∧
    V8.visitSwitchUsesTable true 3 1000000 0 = false := by
  refine ⟨?_, by decide, by decide, by decide⟩
  cases e with
  | false => simp [V8.visitSwitchUsesTable, V8.specSwitchUsesTable]
  | true =>
    simp only [V8.visitSwitchUsesTable, V8.specSwitchUsesTable,
      V8.kMaxTableSwitchValueRange, if_pos]
    constructor
    · intro h
      simp only [Bool.and_eq_true, decide_eq_true_eq] at h
      exact ⟨trivial, h.1.1.1, h.1.1.2, h.1.2, h.2⟩
    · rintro ⟨-, h1, h2, h3, h4⟩
      simp only [Bool.and_eq_true, decide_eq_true_eq]
      exact ⟨⟨⟨h1, h2⟩, h3⟩, h4⟩

/-- C1 counterexample: in the Turbofan worker loop, a job whose Execute phase
fails is still pushed to the output queue by `CompileNext`. -/
theorem compileTask_pushes_failed_job :
    (V8.compileTaskRun [] [⟨0, false⟩] []).2 = [⟨0, false⟩] ∧
    (⟨0, false⟩ : V8.CompilationJobModel).executeSucceeds = false := by
  decide

/-- C1 (amended): in every worker-task run, the Maglev loop pushes a dequeued
job to the output queue if and only if its Execute phase succeeded (failed
jobs are dropped), while the Turbofan loop pushes every dequeued job to the
output queue regardless of the Execute status (failed jobs are disposed later
during finalization or flushing); both loops process a prefix of the input
queue determined by the yield schedule. -/
theorem workerLoop_push_policy (yields : List Bool)
    (input : List V8.CompilationJobModel) :
    ∃ k, ∀ output : List V8.CompilationJobModel,
      V8.maglevJobTaskRun yields input output =
        (input.drop k, output ++ (input.take k).filter (fun j => j.executeSucceeds)) ∧
      V8.compileTaskRun yields input output = (input.drop k, output ++ input.take k) := by
  induction input generalizing yields with
  | nil =>
    refine ⟨0, fun output => ⟨?_, ?_⟩⟩ <;> cases yields with
    | nil => simp [V8.maglevJobTaskRun, V8.compileTaskRun]
    | cons y ys => cases y <;> simp [V8.maglevJobTaskRun, V8.compileTaskRun]
  | cons j rest ih =>
    cases yields with
    | nil =>
      obtain ⟨k, h⟩ := ih []
      refine ⟨k + 1, fun output => ⟨?_, ?_⟩⟩
      · simp only [V8.maglevJobTaskRun]
        rw [(h (if j.executeSucceeds then output ++ [j] else output)).1]
        cases hj : j.executeSucceeds <;>
          simp [List.filter_cons, hj, List.append_assoc]
      · simp only [V8.compileTaskRun, V8.compileNext]
        rw [(h (output ++ [j])).2]
        simp [List.append_assoc]
    | cons y ys =>
      cases y with
      | true =>
        refine ⟨0, fun output => ⟨?_, ?_⟩⟩ <;>
          simp [V8.maglevJobTaskRun, V8.compileTaskRun]
      | false =>
        obtain ⟨k, h⟩ := ih ys
        refine ⟨k + 1, fun output => ⟨?_, ?_⟩⟩
        · simp only [V8.maglevJobTaskRun]
          rw [(h (if j.executeSucceeds then output ++ [j] else output)).1]
          cases hj : j.executeSucceeds <;>
            simp [List.filter_cons, hj, List.append_assoc]
        · simp only [V8.compileTaskRun, V8.compileNext]
          rw [(h (output ++ [j])).2]
          simp [List.append_assoc]

/-- C4 counterexample: a non-blocking `Flush` does not leave the output queue
untouched — with one completed job in the output queue and nothing pending,
`Flush(non-blocking)` drains and disposes it. -/
theorem flush_nonblocking_drains_output :
    (V8.flush false ⟨[], [⟨7, true⟩], [], 0⟩).outputQueue = [] ∧
    (V8.flush false ⟨[], [⟨7, true⟩], [], 0⟩).disposed = [(⟨7, true⟩, true)] ∧
    (⟨[], [⟨7, true⟩], [], 0⟩ : V8.TurbofanDispatcherState).outputQueue ≠ [] := by
  decide

/-- C4 (amended): for every dispatcher state, `Flush(blocking)` removes and
disposes every pending input-queue job (restoring the function code); when
blocking it additionally joins or cancels and re-posts the worker task; in
both blocking and non-blocking modes it then drains and disposes the output
queue, leaving only in-flight work to finish asynchronously.  The same holds
for the Maglev dispatcher's `Flush`, which drops the drained jobs. -/
theorem flush_spec (blocking : Bool) (st : V8.TurbofanDispatcherState)
    (mst : V8.MaglevDispatcherState) :
    (V8.flush blocking st).inputQueue = [] ∧
    (V8.flush blocking st).outputQueue = [] ∧
    (V8.flush blocking st).disposed =
      st.disposed ++ st.inputQueue.map (fun j => (j, true)) ++
        st.outputQueue.map (fun j => (j, true)) ∧
    (V8.flush blocking st).taskGeneration =
      st.taskGeneration + (if blocking then 1 else 0) ∧
    (V8.maglevFlush blocking mst).incoming = [] ∧
    (V8.maglevFlush blocking mst).outgoing = [] ∧
    (V8.maglevFlush blocking mst).dropped = mst.dropped ++ mst.incoming ++ mst.outgoing ∧
    (V8.maglevFlush blocking mst).taskGeneration =
      mst.taskGeneration + (if blocking then 1 else 0) := by
  cases blocking <;>
    simp [V8.flush, V8.flushQueues, V8.flushInputQueue, V8.flushOutputQueue,
      V8.awaitCompileTasks, V8.maglevFlush, List.append_assoc]

theorem inputQueue_toList_length (q : V8.InputQueue) :
    q.toList.length = q.length.toNat := by
  simp [V8.InputQueue.toList]

theorem ringIndex_inj {c i j s : Nat} (hi : i < c) (hj : j < c)
    (h : (i + s) % c = (j + s) % c) : i = j := by
  have h1 : i % c = j % c := Nat.ModEq.add_right_cancel' s h
  rwa [Nat.mod_eq_of_lt hi, Nat.mod_eq_of_lt hj] at h1

theorem queueForOptimization_spec (j : Nat) (q : V8.InputQueue) (hv : q.Valid)
    (hlt : q.length < (q.buf.length : Int)) :
    (V8.queueForOptimization j q).Valid ∧
    (V8.queueForOptimization j q).toList = q.toList ++ [j] ∧
    (V8.queueForOptimization j q).buf.length = q.buf.length ∧
    (V8.queueForOptimization j q).length = q.length + 1 := by
  obtain ⟨h0, hle, hs, hc⟩ := hv
  have hn : q.length.toNat < q.buf.length := by omega
  have hn1 : (q.length + 1).toNat = q.length.toNat + 1 := by omega
  refine ⟨?_, ?_, by simp [V8.queueForOptimization], rfl⟩
  · simp only [V8.queueForOptimization, V8.InputQueue.Valid, List.length_set]
    exact ⟨by omega, by omega, hs, hc⟩
  · simp only [V8.queueForOptimization, V8.InputQueue.toList, V8.inputQueueIndex,
      List.length_set, hn1, List.range_succ, List.map_append, List.map_cons, List.map_nil]
    have hmain :
        List.map (fun i =>
            (q.buf.set ((q.length.toNat + q.shift) % q.buf.length) j).getD
              ((i + q.shift) % q.buf.length) 0) (List.range q.length.toNat) =
        List.map (fun i => q.buf.getD ((i + q.shift) % q.buf.length) 0)
          (List.range q.length.toNat) := by
      apply List.map_congr_left
      intro i hi
      have hi' : i < q.length.toNat := List.mem_range.mp hi
      have hne : (q.length.toNat + q.shift) % q.buf.length ≠ (i + q.shift) % q.buf.length := by
        intro heq
        exact absurd (ringIndex_inj hn (by omega) heq) (by omega)
      simp [List.getD, List.getElem?_set, hne]
    have hlast :
        (q.buf.set ((q.length.toNat + q.shift) % q.buf.length) j).getD
          ((q.length.toNat + q.shift) % q.buf.length) 0 = j := by
      have hidx : (q.length.toNat + q.shift) % q.buf.length < q.buf.length :=
        Nat.mod_lt _ hc
      simp [List.getD, List.getElem?_set, hidx]
    rw [hmain, hlast]

theorem nextInput_spec (q : V8.InputQueue) (hv : q.Valid) (hpos : 0 < q.length) :
    (V8.nextInput q).1 = some (q.buf.getD (V8.inputQueueIndex q 0) 0) ∧
    (V8.nextInput q).2.Valid ∧
    q.toList = q.buf.getD (V8.inputQueueIndex q 0) 0 :: (V8.nextInput q).2.toList ∧
    (V8.nextInput q).2.length = q.length - 1 := by
  obtain ⟨h0, hle, hs, hc⟩ := hv
  have hne : ¬(q.length = 0) := by omega
  have hmod : (1 + q.shift) % q.buf.length < q.buf.length := Nat.mod_lt _ hc
  refine ⟨by simp [V8.nextInput, hne], ⟨?_, ?_, ?_, ?_⟩, ?_, by simp [V8.nextInput, hne]⟩
  · simp only [V8.nextInput, hne, if_false]; omega
  · simp only [V8.nextInput, hne, if_false]; omega
  · simpa [V8.nextInput, hne, V8.inputQueueIndex] using hmod
  · simpa [V8.nextInput, hne] using hc
  · have hn : q.length.toNat = (q.length - 1).toNat + 1 := by omega
    simp only [V8.nextInput, hne, if_false, V8.InputQueue.toList, V8.inputQueueIndex, hn,
      List.range_succ_eq_map, List.map_cons, List.map_map]
    congr 1
    · apply List.map_congr_left
      intro i hi
      simp only [Function.comp]
      congr 1
      have h1 : Nat.succ i + q.shift = i + (1 + q.shift) := by omega
      rw [h1]
      conv_lhs => rw [Nat.add_mod]
      conv_rhs => rw [Nat.add_mod]
      simp [Nat.mod_mod_of_dvd]

theorem dequeueAll_toList (n : Nat) (q : V8.InputQueue) (hv : q.Valid)
    (hlen : q.toList.length = n) : (V8.dequeueAll n q).1 = q.toList := by
  induction n generalizing q with
  | zero =>
    have : q.toList = [] := List.length_eq_zero.mp hlen
    simp [V8.dequeueAll, this]
  | succ n ih =>
    have hpos : 0 < q.length := by
      have := inputQueue_toList_length q
      omega
    obtain ⟨h1, h2, h3, h4⟩ := nextInput_spec q hv hpos
    have hni : V8.nextInput q =
        (some (q.buf.getD (V8.inputQueueIndex q 0) 0), (V8.nextInput q).2) := by
      rw [← h1]
    have hlen3 : q.toList.length = (V8.nextInput q).2.toList.length + 1 := by
      simpa using congrArg List.length h3
    have htail : (V8.nextInput q).2.toList.length = n := by omega
    simp only [V8.dequeueAll]
    rw [hni]
    simp only []
    rw [ih (V8.nextInput q).2 h2 htail]
    exact h3.symm

theorem enqueueAll_spec (jobs : List Nat) (q : V8.InputQueue) (hv : q.Valid)
    (hcap : q.length + (jobs.length : Int) ≤ (q.buf.length : Int)) :
    (V8.enqueueAll jobs q).Valid ∧
    (V8.enqueueAll jobs q).toList = q.toList ++ jobs ∧
    (V8.enqueueAll jobs q).buf.length = q.buf.length ∧
    (V8.enqueueAll jobs q).length = q.length + (jobs.length : Int) := by
  induction jobs generalizing q with
  | nil => simpa [V8.enqueueAll] using hv
  | cons j js ih =>
    have hlt : q.length < (q.buf.length : Int) := by
      simp only [List.length_cons] at hcap
      push_cast at hcap
      omega
    obtain ⟨hv1, htl1, hbl1, hln1⟩ := queueForOptimization_spec j q hv hlt
    have hcap1 : (V8.queueForOptimization j q).length + (js.length : Int) ≤
        ((V8.queueForOptimization j q).buf.length : Int) := by
      rw [hln1, hbl1]
      simp only [List.length_cons] at hcap
      push_cast at hcap ⊢
      omega
    obtain ⟨hv2, htl2, hbl2, hln2⟩ := ih (V8.queueForOptimization j q) hv1 hcap1
    have henq : V8.enqueueAll (j :: js) q = V8.enqueueAll js (V8.queueForOptimization j q) := by
      simp [V8.enqueueAll]
    rw [henq]
    refine ⟨hv2, ?_, by rw [hbl2, hbl1], ?_⟩
    · rw [htl2, htl1]
      simp
    · rw [hln2, hln1]
      simp only [List.length_cons]
      push_cast
      omega

/-- C8: starting from an empty ring-buffer queue, enqueueing N jobs through
`QueueForOptimization` (N within the capacity, no intervening dequeues) and
then calling `NextInput` N times returns exactly those jobs in enqueue order;
moreover the queue length observed under the lock never goes negative:
both `NextInput` and a guarded `QueueForOptimization` preserve the
well-formedness invariant, whose first component is `0 ≤ length`. -/
theorem inputQueue_fifo (q : V8.InputQueue) (jobs : List Nat) (j : Nat)
    (hq : q.Valid) (hempty : q.length = 0)
    (hcap : (jobs.length : Int) ≤ (q.buf.length : Int)) :
    (V8.dequeueAll jobs.length (V8.enqueueAll jobs q)).1 = jobs ∧
    (∀ r : V8.InputQueue, r.Valid →
      (V8.nextInput r).2.Valid ∧ 0 ≤ (V8.nextInput r).2.length) ∧
    (∀ r : V8.InputQueue, r.Valid → r.length < (r.buf.length : Int) →
      (V8.queueForOptimization j r).Valid ∧ 0 ≤ (V8.queueForOptimization j r).length) := by
  refine ⟨?_, ?_, ?_⟩
  · have hcap' : q.length + (jobs.length : Int) ≤ (q.buf.length : Int) := by omega
    obtain ⟨hv, htl, hbl, hln⟩ := enqueueAll_spec jobs q hq hcap'
    have hqnil : q.toList = [] := by
      have := inputQueue_toList_length q
      rw [hempty] at this
      simpa using List.length_eq_zero.mp (by simpa using this)
    have hlen : (V8.enqueueAll jobs q).toList.length = jobs.length := by
      rw [htl, hqnil]
      simp
    rw [dequeueAll_toList jobs.length (V8.enqueueAll jobs q) hv hlen, htl, hqnil]
    simp
  · intro r hr
    by_cases hz : r.length = 0
    · have hni : V8.nextInput r = (none, r) := by simp [V8.nextInput, hz]
      rw [hni]
      exact ⟨hr, hr.1⟩
    · have hpos : 0 < r.length := by
        obtain ⟨h0, -, -, -⟩ := hr
        omega
      obtain ⟨-, h2, -, -⟩ := nextInput_spec r hr hpos
      exact ⟨h2, h2.1⟩
  · intro r hr hlt
    obtain ⟨hv1, -, -, -⟩ := queueForOptimization_spec j r hr hlt
    exact ⟨hv1, hv1.1⟩

/-- Witness for C8: a capacity-4 queue with front shift 2, three enqueued
jobs 5, 6, 7, dequeued in the same order. -/
theorem inputQueue_fifo_witness :
    (V8.dequeueAll 3 (V8.enqueueAll [5, 6, 7] ⟨[0, 0, 0, 0], 2, 0⟩)).1 = [5, 6, 7] :=
  (inputQueue_fifo ⟨[0, 0, 0, 0], 2, 0⟩ [5, 6, 7] 9 (by decide) (by decide) (by decide)).1

/-- C9: the input-location array allocated for a `DeoptInfo` has exactly the
statically computed size of its frame chain: the per-frame-type sums of
closure, receiver, context, frame-state, argument and parameter slots over
the top frame and all parent frames. -/
theorem foldl_deoptFrameContribution (l : List V8.DeoptFrameData) (init : Nat) :
    List.foldl (fun acc g => acc + V8.deoptFrameContribution g) init l =
      init + (l.map V8.deoptFrameContribution).sum := by
  induction l generalizing init with
  | nil => simp
  | cons g gs ih =>
    simp only [List.foldl_cons, List.map_cons, List.sum_cons]
    rw [ih]
    omega

theorem specFrameContribution_eq (f : V8.DeoptFrameData) :
    V8.specFrameContribution f = V8.deoptFrameContribution f := by
  cases f <;> rfl

/-- C9: the input-location array allocated for a `DeoptInfo` has exactly the
statically computed size of its frame chain: the per-frame-type sums of
closure, receiver, context, frame-state, argument and parameter slots over
the top frame and all parent frames. -/
theorem deoptInfo_inputLocations_size (top : V8.DeoptFrameData)
    (parents : List V8.DeoptFrameData) :
    (V8.mkDeoptInfo top parents).inputLocations.length =
      V8.specFrameSize (top :: parents) := by
  have hfun : V8.specFrameContribution = V8.deoptFrameContribution :=
    funext specFrameContribution_eq
  simp only [V8.mkDeoptInfo, List.length_replicate, V8.specFrameSize,
    V8.getInputLocationsArraySize, List.map_cons, List.sum_cons, hfun]
  rw [foldl_deoptFrameContribution]

/-- C7: both arm64 bounds checks validate the index with an unsigned
comparison against the (element-size-scaled or element-size-adjusted) byte
length, so every negative int32 index — reinterpreted as an unsigned
value — fails the same out-of-bounds check that catches too-large indices
and triggers the eager deopt, while in-bounds non-negative indices pass. -/
theorem boundsChecks_unsigned (byteLength : Nat) (index : Int) (s : Nat)
    (hs : s = 1 ∨ s = 2 ∨ s = 4 ∨ s = 8)
    (hlo : -(2 ^ 31 : Int) ≤ index) (hhi : index < 2 ^ 31)
    (hlenTA : byteLength ≤ 2 ^ 31 * s) (hlenDV : byteLength ≤ 2 ^ 31) :
    (index < 0 → V8.checkJSTypedArrayBoundsDeopts byteLength index s = true) ∧
    (0 ≤ index → (byteLength : Int) ≤ index * (s : Int) →
      V8.checkJSTypedArrayBoundsDeopts byteLength index s = true) ∧
    (0 ≤ index → index * (s : Int) < (byteLength : Int) →
      V8.checkJSTypedArrayBoundsDeopts byteLength index s = false) ∧
    (index < 0 → V8.checkJSDataViewBoundsDeopts byteLength index s = true) ∧
    (0 ≤ index → (byteLength : Int) - ((s : Int) - 1) ≤ index →
      V8.checkJSDataViewBoundsDeopts byteLength index s = true) ∧
    (0 ≤ index → index + ((s : Int) - 1) < (byteLength : Int) →
      V8.checkJSDataViewBoundsDeopts byteLength index s = false) := by
  rcases hs with rfl | rfl | rfl | rfl <;>
    refine ⟨?_, ?_, ?_, ?_, ?_, ?_⟩ <;>
    · intros
      simp only [V8.checkJSTypedArrayBoundsDeopts, V8.checkJSDataViewBoundsDeopts,
        V8.int32AsUnsignedWord, V8.elementSizeShift, Nat.shiftLeft_eq,
        decide_eq_true_eq, decide_eq_false_iff_not]
      omega

/-- Witness for C7: index -1 on a 16-byte, 4-byte-element typed array and
data view fails both bounds checks. -/
theorem boundsChecks_unsigned_witness :
    V8.checkJSTypedArrayBoundsDeopts 16 (-1) 4 = true ∧
    V8.checkJSDataViewBoundsDeopts 16 (-1) 4 = true :=
  ⟨(boundsChecks_unsigned 16 (-1) 4 (by decide) (by decide) (by decide)
      (by decide) (by decide)).1 (by decide),
   (boundsChecks_unsigned 16 (-1) 4 (by decide) (by decide) (by decide)
      (by decide) (by decide)).2.2.2.1 (by decide)⟩

/-- C5: for every word comparison whose left operand can be encoded as an
immediate for the comparison opcode and whose right operand cannot,
`VisitWordCompare` swaps the two operands and commutes the continuation's
condition; without the swap, the selector would take the both-registers path,
materializing the left operand into a register. -/
theorem wordCompare_swap_commute (canImm : V8.CmpNode → V8.CmpOpcode → Bool)
    (op : V8.CmpOpcode) (l r : V8.CmpNode) (cont : V8.FlagsContinuation)
    (hl : canImm l op = true) (hr : canImm r op = false) :
    V8.visitWordCompare canImm op l r cont =
      V8.visitWordCompareMatched canImm op r l cont.commute ∧
    V8.visitWordCompareMatched canImm op l r cont =
      .compare op (.useRegister l) (.useRegister r) cont.condition := by
  constructor
  · simp [V8.visitWordCompare, hl, hr]
  · simp [V8.visitWordCompareMatched, hr]

/-- Witness for C5: comparing the constant 5 (immediate-encodable) against a
non-constant node with signed less-than swaps the operands and flips the
condition to signed greater-than. -/
theorem wordCompare_swap_commute_witness :
    V8.visitWordCompare (fun n _ => n.isConstant) .kRiscvCmp
        (.int32Constant 5) (.other 0) ⟨.kSignedLessThan, false⟩ =
      V8.visitWordCompareMatched (fun n _ => n.isConstant) .kRiscvCmp
        (.other 0) (.int32Constant 5) ⟨.kSignedGreaterThan, false⟩ :=
  (wordCompare_swap_commute (fun n _ => n.isConstant) .kRiscvCmp
    (.int32Constant 5) (.other 0) ⟨.kSignedLessThan, false⟩ (by decide) (by decide)).1

/-- C6 counterexample: for equal shift amounts 16 and 24 the fused emission
is a dedicated sign-extension opcode, but for 32 it is `kRiscvShl32` with the
temp immediate 0 — not a dedicated sign-extend-word instruction. -/
theorem word32Sar_32_emits_shl :
    V8.visitWord32Sar true (.word32Shl (.other 0) (.int32Constant 32))
        (.int32Constant 32) =
      ⟨.kRiscvShl32,
        [.defineAsRegister (.word32Sar (.word32Shl (.other 0) (.int32Constant 32))
            (.int32Constant 32)),
         .useRegister (.other 0), .tempImmediate 0]⟩ ∧
    (V8.visitWord32Sar true (.word32Shl (.other 0) (.int32Constant 32))
        (.int32Constant 32)).op ≠ V8.ArchOpcode32.kRiscvSignExtendWord := by
  decide

theorem maskBits_two_pow_sub_one (w : Nat) (h1 : 1 ≤ w) (h2 : w ≤ 32) :
    V8.popcount32 (2 ^ w - 1) = w ∧ V8.countLeadingZeros32 (2 ^ w - 1) = 32 - w := by
  interval_cases w <;> exact ⟨by decide, by decide⟩

/-- C6 (amended): with the intermediate node covered by its single consumer,
`shift-left(bitwise-and(x, mask), k)` with a contiguous mask that the shift
pushes to or past the top bit is lowered to a single shift-left of `x`; and
`arithmetic-shift-right(shift-left(x, k), k)` is lowered, for k = 16 to a
single sign-extend-short, for k = 24 to a single sign-extend-byte, and for
k = 32 to a single shift-left-by-zero instruction (`kRiscvShl32` with temp
immediate 0, which performs the word sign-extension) rather than a dedicated
sign-extend-word opcode. -/
theorem shiftFusion_spec (x : V8.ShiftNode) (w mask shift : Nat)
    (hm : mask = 2 ^ w - 1) (hw1 : 1 ≤ w) (hw2 : w ≤ 32)
    (hs1 : 1 ≤ shift) (hs2 : shift ≤ 31) (htop : 32 ≤ shift + w) :
    V8.visitWord32Shl true (.word32And x (.int32Constant mask))
        (.int32Constant shift) =
      ⟨.kRiscvShl32,
        [.defineAsRegister (.word32Shl (.word32And x (.int32Constant mask))
            (.int32Constant shift)),
         .useRegister x, .useImmediate (.int32Constant shift)]⟩ ∧
    V8.visitWord32Sar true (.word32Shl x (.int32Constant 16)) (.int32Constant 16) =
      ⟨.kRiscvSignExtendShort,
        [.defineAsRegister (.word32Sar (.word32Shl x (.int32Constant 16))
            (.int32Constant 16)),
         .useRegister x]⟩ ∧
    V8.visitWord32Sar true (.word32Shl x (.int32Constant 24)) (.int32Constant 24) =
      ⟨.kRiscvSignExtendByte,
        [.defineAsRegister (.word32Sar (.word32Shl x (.int32Constant 24))
            (.int32Constant 24)),
         .useRegister x]⟩ ∧
    V8.visitWord32Sar true (.word32Shl x (.int32Constant 32)) (.int32Constant 32) =
      ⟨.kRiscvShl32,
        [.defineAsRegister (.word32Sar (.word32Shl x (.int32Constant 32))
            (.int32Constant 32)),
         .useRegister x, .tempImmediate 0]⟩ := by
  obtain ⟨hp, hc⟩ := maskBits_two_pow_sub_one w hw1 hw2
  have hw0 : w ≠ 0 := by omega
  have h32 : 32 - w + w = 32 := by omega
  subst hm
  refine ⟨?_, rfl, rfl, rfl⟩
  have hpair : V8.andMatcherPair x (.int32Constant (2 ^ w - 1)) =
      (x, .int32Constant (2 ^ w - 1)) := by
    simp [V8.andMatcherPair, V8.ShiftNode.isConstant]
  simp [V8.visitWord32Shl, hpair, hs1, hs2, hp, hc, hw0, h32, htop]

/-- Witness for C6: mask `2^28 - 1` with shift 4 fuses to a single `Shl32` of
the masked value's input. -/
theorem shiftFusion_spec_witness :
    V8.visitWord32Shl true (.word32And (.other 3) (.int32Constant 268435455))
        (.int32Constant 4) =
      ⟨.kRiscvShl32,
        [.defineAsRegister (.word32Shl (.word32And (.other 3) (.int32Constant 268435455))
            (.int32Constant 4)),
         .useRegister (.other 3), .useImmediate (.int32Constant 4)]⟩ :=
  (shiftFusion_spec (.other 3) 28 268435455 4 (by decide) (by decide) (by decide)
    (by decide) (by decide) (by decide)).1
